import Mathlib

/-!
Verification of the scratchdb row store (cmd/scratchdb/main.go).

The Go program is shallowly embedded as follows:

* Byte buffers (`Page`, the backing file) are total functions `Nat → Nat`
  returning the byte stored at an index; bytes written by the program are
  always < 256, and unwritten bytes are 0 (Go zero-initialises both the
  page buffers from `make([]byte, PageSize)` and the bytes read past the
  end of the file).
* Go strings are byte lists (`List Nat`).  Machine integers are `Nat`;
  `uint32` arithmetic carries explicit `% 2 ^ 32` / range hypotheses where
  it matters.
* Go slice operations that can panic (out-of-range slice bounds inside
  `serializeRow` / `deserializeRow`, the unchecked array index in
  `getPage`, the `panic(err)` in `rowSlot`) are modelled by `Option` /
  an explicit error constructor: `none` (or `PageErr.indexPanic`) marks an
  abrupt runtime fault, which is distinct from the checked error value
  `ErrFail` that `getPage` returns (`PageErr.capacity`).
* The constants mirror the Go `const` block.  `unsafe.Sizeof` of a Go
  `string` is the 16-byte string header (pointer + length) on a 64-bit
  target, the platform the program is built for, hence
  `UsernameSize = EmailSize = 16`.
-/

/-! ## Layout constants (Go const block, main.go lines 85-97) -/

def IDSize : Nat := 4
def UsernameSize : Nat := 16
def EmailSize : Nat := 16
def IDOffset : Nat := 0
def UsernameOffset : Nat := IDOffset + IDSize
def EmailOffset : Nat := UsernameOffset + UsernameSize
def RowSize : Nat := IDSize + UsernameSize + EmailSize
def TableMaxPages : Nat := 4096
def PageSize : Nat := 4096
def RowsPerPage : Nat := PageSize / IDSize
def TableMaxRows : Nat := RowsPerPage * TableMaxPages

/-! ## Rows and byte buffers -/

/-- One fixed-schema record.  `Username` and `Email` are the byte contents
of the Go strings. -/
structure Row where
  ID : Nat
  Username : List Nat
  Email : List Nat
deriving DecidableEq

/-- A byte buffer: the byte stored at each index. -/
def Page : Type := Nat → Nat

/-- A freshly allocated page, as produced by `make([]byte, PageSize)`:
every byte is zero. -/
def zeroPage : Page := fun _ => 0

/-- Write the byte list `bs` into buffer `p` starting at offset `off`
(the semantics of Go's `copy` into the slice `p[off:off+len(bs)]`). -/
def writeBytesAt (p : Page) (off : Nat) (bs : List Nat) : Page :=
  fun j => if off ≤ j ∧ j < off + bs.length then bs.getD (j - off) 0 else p j

/-- Read `n` bytes of buffer `p` starting at offset `off`. -/
def readBytes (p : Page) (off n : Nat) : List Nat :=
  (List.range n).map fun i => p (off + i)

/-- The four little-endian bytes of a `uint32` value, as written by
`binary.LittleEndian.PutUint32`. -/
def putUint32LE (v : Nat) : List Nat :=
  [v % 256, v / 256 % 256, v / 65536 % 256, v / 16777216 % 256]

/-- Recombine four little-endian bytes, as read by
`binary.LittleEndian.Uint32`. -/
def getUint32LE (bs : List Nat) : Nat :=
  bs.getD 0 0 + 256 * bs.getD 1 0 + 65536 * bs.getD 2 0 + 16777216 * bs.getD 3 0

/-! ## Row codec (serializeRow / deserializeRow, main.go lines 215-230) -/

/-- The three writes of `serializeRow`: the ID little-endian at
`slot+IDOffset`, then `copy` of Username and Email into their fixed-width
slots.  Go's `copy` stops at the destination width, hence the `take`. -/
def serializeRowCore (row : Row) (page : Page) (slot : Nat) : Page :=
  writeBytesAt
    (writeBytesAt
      (writeBytesAt page (slot + IDOffset) (putUint32LE row.ID))
      (slot + UsernameOffset) (row.Username.take UsernameSize))
    (slot + EmailOffset) (row.Email.take EmailSize)

/-- `serializeRow`.  The Go function slices `page[slot+EmailOffset :
slot+RowSize]` (and the narrower ranges before it) out of a buffer of
`PageSize` bytes without any bounds check; when `slot + RowSize` exceeds
`PageSize` the slice expression panics at run time, modelled by `none`. -/
def serializeRow (row : Row) (page : Page) (slot : Nat) : Option Page :=
  if slot + RowSize ≤ PageSize then some (serializeRowCore row page slot) else none

/-- `bytes.Trim(buf, "\x00")`: remove null bytes from both ends. -/
def trimNilBuf (bs : List Nat) : List Nat :=
  ((bs.dropWhile (· == 0)).reverse.dropWhile (· == 0)).reverse

/-- The three reads of `deserializeRow`. -/
def deserializeRowCore (page : Page) (slot : Nat) : Row :=
  { ID := getUint32LE (readBytes page (slot + IDOffset) IDSize)
    Username := trimNilBuf (readBytes page (slot + UsernameOffset) UsernameSize)
    Email := trimNilBuf (readBytes page (slot + EmailOffset) EmailSize) }

/-- `deserializeRow`, with the same implicit slice bounds as
`serializeRow` (reads `page[slot : slot+RowSize]` of a `PageSize` buffer). -/
def deserializeRow (page : Page) (slot : Nat) : Option Row :=
  if slot + RowSize ≤ PageSize then some (deserializeRowCore page slot) else none

/-! ## Codec helper lemmas -/

theorem writeBytesAt_of_lt_or_ge (p : Page) (off : Nat) (bs : List Nat) (j : Nat)
    (h : j < off ∨ off + bs.length ≤ j) :
    writeBytesAt p off bs j = p j := by
  unfold writeBytesAt
  exact if_neg (by omega)

theorem readBytes_congr (p q : Page) (off n : Nat)
    (h : ∀ i, i < n → p (off + i) = q (off + i)) :
    readBytes p off n = readBytes q off n := by
  unfold readBytes
  exact List.map_congr_left fun i hi => h i (List.mem_range.mp hi)

theorem readBytes_writeBytesAt (p : Page) (off : Nat) (bs : List Nat) :
    readBytes (writeBytesAt p off bs) off bs.length = bs := by
  apply List.ext_getElem
  · simp [readBytes]
  · intro i h1 h2
    have hlen : i < bs.length := by simpa [readBytes] using h1
    simp only [readBytes, List.getElem_map, List.getElem_range]
    unfold writeBytesAt
    rw [if_pos ⟨by omega, by omega⟩]
    have hoi : off + i - off = i := by omega
    rw [hoi, List.getD_eq_getElem bs 0 hlen]

theorem readBytes_split (p : Page) (off m n : Nat) :
    readBytes p off (m + n) = readBytes p off m ++ readBytes p (off + m) n := by
  unfold readBytes
  rw [List.range_add, List.map_append, List.map_map]
  congr 1
  apply List.map_congr_left
  intro i _
  simp only [Function.comp_apply]
  congr 1
  omega

theorem readBytes_zeroPage (off n : Nat) :
    readBytes zeroPage off n = List.replicate n 0 := by
  unfold readBytes zeroPage
  rw [List.map_const']
  simp

theorem dropWhile_zero_of_all_ne (l : List Nat) (h : ∀ b ∈ l, b ≠ 0) :
    l.dropWhile (· == 0) = l := by
  cases l with
  | nil => rfl
  | cons a t =>
    rw [List.dropWhile_cons, if_neg]
    simp only [beq_iff_eq]
    exact h a (by simp)

theorem dropWhile_zero_replicate_append (k : Nat) (l : List Nat) :
    (List.replicate k 0 ++ l).dropWhile (· == 0) = l.dropWhile (· == 0) := by
  induction k with
  | zero => simp
  | succ k ih =>
    rw [List.replicate_succ, List.cons_append, List.dropWhile_cons]
    simp only [ih]
    simp

/-- Trimming null bytes undoes the zero padding left in a slot, provided
the payload itself contains no null byte. -/
theorem trimNilBuf_append_replicate (u : List Nat) (k : Nat) (h : ∀ b ∈ u, b ≠ 0) :
    trimNilBuf (u ++ List.replicate k 0) = u := by
  unfold trimNilBuf
  cases u with
  | nil =>
    simp [dropWhile_zero_replicate_append]
  | cons a t =>
    have ha : ((a == 0) = false) := beq_eq_false_iff_ne.mpr (h a (by simp))
    have h1 : (a :: (t ++ List.replicate k 0)).dropWhile (· == 0)
        = a :: (t ++ List.replicate k 0) := by
      rw [List.dropWhile_cons, ha]
      simp
    rw [List.cons_append, h1, ← List.cons_append, List.reverse_append,
      List.reverse_replicate, dropWhile_zero_replicate_append,
      dropWhile_zero_of_all_ne _ (fun b hb => h b (List.mem_reverse.mp hb)),
      List.reverse_reverse]

/-- Pointwise description of the page after `serializeRow`'s three writes:
the Email slot bytes, then the Username slot bytes, then the four ID bytes,
and the underlying buffer everywhere else. -/
theorem serializeRowCore_apply (row : Row) (p : Page) (slot j : Nat)
    (hu : row.Username.length ≤ 16) (he : row.Email.length ≤ 16) :
    serializeRowCore row p slot j =
      if slot + 20 ≤ j ∧ j < slot + 20 + row.Email.length then
        row.Email.getD (j - (slot + 20)) 0
      else if slot + 4 ≤ j ∧ j < slot + 4 + row.Username.length then
        row.Username.getD (j - (slot + 4)) 0
      else if slot ≤ j ∧ j < slot + 4 then
        (putUint32LE row.ID).getD (j - slot) 0
      else p j := by
  have htu : row.Username.take UsernameSize = row.Username := List.take_of_length_le hu
  have hte : row.Email.take EmailSize = row.Email := List.take_of_length_le he
  unfold serializeRowCore writeBytesAt
  rw [htu, hte]
  rfl

theorem serialize_read_id (row : Row) (slot : Nat)
    (hu : row.Username.length ≤ 16) (he : row.Email.length ≤ 16) :
    readBytes (serializeRowCore row zeroPage slot) slot 4 = putUint32LE row.ID := by
  apply List.ext_getElem
  · simp [readBytes, putUint32LE]
  · intro i h1 h2
    have hi : i < 4 := by simpa [readBytes] using h1
    simp only [readBytes, List.getElem_map, List.getElem_range]
    rw [serializeRowCore_apply row zeroPage slot (slot + i) hu he,
      if_neg (by omega), if_neg (by omega), if_pos (by omega : slot ≤ slot + i ∧ slot + i < slot + 4),
      show slot + i - slot = i from by omega]
    exact List.getD_eq_getElem (putUint32LE row.ID) 0 h2

theorem serialize_read_user (row : Row) (slot : Nat)
    (hu : row.Username.length ≤ 16) (he : row.Email.length ≤ 16) :
    readBytes (serializeRowCore row zeroPage slot) (slot + 4) 16
      = row.Username ++ List.replicate (16 - row.Username.length) 0 := by
  apply List.ext_getElem
  · simp [readBytes]
    omega
  · intro i h1 h2
    have hi : i < 16 := by simpa [readBytes] using h1
    simp only [readBytes, List.getElem_map, List.getElem_range]
    rw [serializeRowCore_apply row zeroPage slot (slot + 4 + i) hu he, if_neg (by omega)]
    by_cases hcase : i < row.Username.length
    · rw [if_pos (by omega : slot + 4 ≤ slot + 4 + i ∧ slot + 4 + i < slot + 4 + row.Username.length),
        show slot + 4 + i - (slot + 4) = i from by omega,
        List.getD_eq_getElem row.Username 0 hcase]
      rw [List.getElem_append_left hcase]
    · rw [if_neg (by omega), if_neg (by omega)]
      rw [List.getElem_append_right (by omega : row.Username.length ≤ i)]
      rw [List.getElem_replicate]
      rfl

theorem serialize_read_email (row : Row) (slot : Nat)
    (hu : row.Username.length ≤ 16) (he : row.Email.length ≤ 16) :
    readBytes (serializeRowCore row zeroPage slot) (slot + 20) 16
      = row.Email ++ List.replicate (16 - row.Email.length) 0 := by
  apply List.ext_getElem
  · simp [readBytes]
    omega
  · intro i h1 h2
    have hi : i < 16 := by simpa [readBytes] using h1
    simp only [readBytes, List.getElem_map, List.getElem_range]
    rw [serializeRowCore_apply row zeroPage slot (slot + 20 + i) hu he]
    by_cases hcase : i < row.Email.length
    · rw [if_pos (by omega : slot + 20 ≤ slot + 20 + i ∧ slot + 20 + i < slot + 20 + row.Email.length),
        show slot + 20 + i - (slot + 20) = i from by omega,
        List.getD_eq_getElem row.Email 0 hcase]
      rw [List.getElem_append_left hcase]
    · rw [if_neg (by omega), if_neg (by omega), if_neg (by omega)]
      rw [List.getElem_append_right (by omega : row.Email.length ≤ i)]
      rw [List.getElem_replicate]
      rfl

/-- Core codec round trip on a zero-filled page. -/
theorem serialize_deserialize_core (row : Row) (slot : Nat)
    (hid : row.ID < 4294967296)
    (hu : row.Username.length ≤ 16) (hu0 : ∀ b ∈ row.Username, b ≠ 0)
    (he : row.Email.length ≤ 16) (he0 : ∀ b ∈ row.Email, b ≠ 0) :
    deserializeRowCore (serializeRowCore row zeroPage slot) slot = row := by
  have hID : (deserializeRowCore (serializeRowCore row zeroPage slot) slot).ID = row.ID := by
    show getUint32LE (readBytes (serializeRowCore row zeroPage slot) slot 4) = row.ID
    rw [serialize_read_id row slot hu he]
    show row.ID % 256 + 256 * (row.ID / 256 % 256) + 65536 * (row.ID / 65536 % 256)
        + 16777216 * (row.ID / 16777216 % 256) = row.ID
    omega
  have hU : (deserializeRowCore (serializeRowCore row zeroPage slot) slot).Username
      = row.Username := by
    show trimNilBuf (readBytes (serializeRowCore row zeroPage slot) (slot + 4) 16)
        = row.Username
    rw [serialize_read_user row slot hu he]
    exact trimNilBuf_append_replicate row.Username _ hu0
  have hE : (deserializeRowCore (serializeRowCore row zeroPage slot) slot).Email
      = row.Email := by
    show trimNilBuf (readBytes (serializeRowCore row zeroPage slot) (slot + 20) 16)
        = row.Email
    rw [serialize_read_email row slot hu he]
    exact trimNilBuf_append_replicate row.Email _ he0
  cases row with
  | mk v u e =>
    rw [show deserializeRowCore (serializeRowCore ⟨v, u, e⟩ zeroPage slot) slot
        = ⟨(deserializeRowCore (serializeRowCore ⟨v, u, e⟩ zeroPage slot) slot).ID,
           (deserializeRowCore (serializeRowCore ⟨v, u, e⟩ zeroPage slot) slot).Username,
           (deserializeRowCore (serializeRowCore ⟨v, u, e⟩ zeroPage slot) slot).Email⟩ from rfl,
      hID, hU, hE]

/-! ## Backing file and Pager (main.go lines 116-196) -/

/-- The backing file: byte content and current size.  Bytes at or past
`size` read as zero (a short `Read` leaves the buffer tail zero-filled). -/
structure DBFile where
  data : Nat → Nat
  size : Nat

/-- `File.WriteAt(buf, off)` for a full page buffer: overwrites `PageSize`
bytes starting at `off` and extends the file size when the write reaches
past the current end. -/
def writePageAt (f : DBFile) (off : Nat) (p : Page) : DBFile :=
  { data := fun j => if off ≤ j ∧ j < off + PageSize then p (j - off) else f.data j
    size := max f.size (off + PageSize) }

/-- The Pager: the owned file plus the page cache (`Pages` array entries,
`none` standing for a nil slice). -/
structure Pager where
  file : DBFile
  pages : Nat → Option Page

/-- Outcomes of a failed page request.  `capacity` is the checked error
value `ErrFail` that `getPage` returns; `indexPanic` is the uncatchable
runtime fault of indexing `pager.Pages[pageNum]` out of bounds. -/
inductive PageErr where
  | capacity
  | indexPanic
deriving DecidableEq

/-- Reading one page's bytes from the file at `pageNum * PageSize` (the
`Seek` + `Read` in `getPage`); bytes past the end of file stay zero. -/
def loadPage (f : DBFile) (pageNum : Nat) : Page :=
  fun j => if pageNum * PageSize + j < f.size then f.data (pageNum * PageSize + j) else 0

/-- `getPage`.  The Go code rejects only `pageNum > TableMaxPages`, so
`pageNum = TableMaxPages` slips past the check and hits the out-of-bounds
array index (`indexPanic`).  On a cache miss it allocates a zero page,
computes `numPages` from the file size (incrementing when the size is an
exact multiple of `PageSize`, as written), reads the page's extent from
the file when `pageNum <= numPages`, and caches the result.  Returns the
page together with the updated pager state. -/
def getPage (pager : Pager) (pageNum : Nat) : Except PageErr (Page × Pager) :=
  if TableMaxPages < pageNum then .error .capacity
  else if TableMaxPages ≤ pageNum then .error .indexPanic
  else
    match pager.pages pageNum with
    | some p => .ok (p, pager)
    | none =>
      let fsize := pager.file.size
      let numPages := fsize / PageSize + (if fsize % PageSize = 0 then 1 else 0)
      let page : Page :=
        if pageNum ≤ numPages then loadPage pager.file pageNum else zeroPage
      .ok (page, { pager with
        pages := fun k => if k = pageNum then some page else pager.pages k })

/-- The Table: row count plus the owned Pager (field `Pager` in Go). -/
structure Table where
  NumRows : Nat
  pager : Pager

/-- `rowSlot`: map a row number to its page and intra-page byte offset
`(rowNum % RowsPerPage) * RowSize`.  The Go function calls `panic(err)`
on any `getPage` error instead of returning it, modelled by `none`. -/
def rowSlot (t : Table) (rowNum : Nat) : Option (Page × Nat × Table) :=
  match getPage t.pager (rowNum / RowsPerPage) with
  | .error _ => none
  | .ok (page, pager') =>
    some (page, rowNum % RowsPerPage * RowSize, { t with pager := pager' })

/-- `ExecuteResult` constants. -/
inductive ExecuteResult where
  | ExecuteTableFull
  | ExecuteSuccess
  | ExecuteFail
deriving DecidableEq

/-- `executeInsert`: reject with `ExecuteTableFull` when `NumRows` has
reached `TableMaxRows`; otherwise serialize the row into the slot for row
number `NumRows` and increment `NumRows`.  Go's `serializeRow` mutates the
cached page slice in place, so the cache entry for the row's page is
replaced by the written page.  `none` models a panic inside `rowSlot` or
an out-of-bounds slice write inside `serializeRow`. -/
def executeInsert (row : Row) (t : Table) : Option (ExecuteResult × Table) :=
  if TableMaxRows ≤ t.NumRows then some (.ExecuteTableFull, t)
  else
    match rowSlot t t.NumRows with
    | none => none
    | some (page, slot, t1) =>
      match serializeRow row page slot with
      | none => none
      | some page' =>
        some (.ExecuteSuccess,
          { NumRows := t.NumRows + 1
            pager := { t1.pager with
              pages := fun k =>
                if k = t.NumRows / RowsPerPage then some page' else t1.pager.pages k } })

/-- The scan loop of `executeSelect`: decode row numbers `i, i+1, ...` for
`count` steps, threading the pager state. -/
def selectLoop : Nat → Nat → Table → Option (List Row × Table)
  | 0, _, t => some ([], t)
  | count + 1, i, t =>
    match rowSlot t i with
    | none => none
    | some (page, slot, t1) =>
      match deserializeRow page slot with
      | none => none
      | some row =>
        match selectLoop count (i + 1) t1 with
        | none => none
        | some (rows, t2) => some (row :: rows, t2)

/-- `executeSelect`: decode rows `0 .. NumRows-1` in order. -/
def executeSelect (t : Table) : Option (List Row × Table) :=
  selectLoop t.NumRows 0 t

/-- `Table.Close`'s write-back loop: for each row number, recompute its
(page, slot) and `WriteAt` the page's full buffer at offset `slot` — the
intra-page byte offset, exactly as the Go code does. -/
def closeLoop : Nat → Nat → Table → Option DBFile
  | 0, _, t => some t.pager.file
  | count + 1, i, t =>
    match rowSlot t i with
    | none => none
    | some (page, slot, t1) =>
      closeLoop count (i + 1)
        { t1 with pager := { t1.pager with file := writePageAt t1.pager.file slot page } }

/-- `Table.Close`: write back every row number in `0 .. NumRows-1`, then
sync and release the handle (no further effect on the file content). -/
def tableClose (t : Table) : Option DBFile :=
  closeLoop t.NumRows 0 t

/-- `openDB`: open (or create) the backing file and recompute `NumRows`
from the file size; the fresh pager has an empty cache. -/
def openDB (f : DBFile) : Table :=
  { NumRows := f.size / RowSize
    pager := { file := f, pages := fun _ => none } }

/-- A newly created (empty) backing file. -/
def emptyFile : DBFile :=
  { data := fun _ => 0, size := 0 }

/-- Successive inserts, as issued by the REPL for a sequence of prepared
insert statements; the `ExecuteResult` of each insert is discarded, as in
`executeStatement`. -/
def insertMany : List Row → Table → Option Table
  | [], t => some t
  | r :: rs, t =>
    match executeInsert r t with
    | none => none
    | some (_, t1) => insertMany rs t1

/-! ## Command interpreter (main.go lines 255-323 and the run loop) -/

/-- Whitespace for the `fmt` scanner (input lines contain no newline:
`run` trims it before dispatch). -/
def isWS (c : Char) : Bool := c == ' ' || c == '\t'

def isDigitCh (c : Char) : Bool := 48 ≤ c.toNat && c.toNat ≤ 57

/-- Decimal value of a digit string. -/
def digitsVal (ds : List Char) : Nat :=
  ds.foldl (fun a c => 10 * a + (c.toNat - 48)) 0

/-- The digit-run part of a `%d` scan, after the optional sign: a nonempty
maximal run of decimal digits whose value fits in 32 bits.  A missing
digit run or an out-of-range value is a scan error, modelled by `none`. -/
def sscanDigits (s2 : List Char) : Option (Nat × List Char) :=
  if s2.takeWhile isDigitCh = [] then none
  else if digitsVal (s2.takeWhile isDigitCh) < 4294967296 then
    some (digitsVal (s2.takeWhile isDigitCh), s2.dropWhile isDigitCh)
  else none

/-- One `%d` step of `fmt.Sscanf` into a `uint32` operand: skip leading
whitespace, accept an optional `+` sign, then the digit run.  The `-` of a
negative number is rejected for an unsigned operand (no digit follows the
missing sign acceptance), as `fmt` does. -/
def scanUint32 (s : List Char) : Option (Nat × List Char) :=
  if (s.dropWhile isWS).head? = some '+' then sscanDigits (s.dropWhile isWS).tail
  else sscanDigits (s.dropWhile isWS)

/-- One `%s` step of `fmt.Sscanf`: skip leading whitespace, then take a
nonempty maximal run of non-whitespace characters. -/
def scanTok (s : List Char) : Option (List Char × List Char) :=
  if (s.dropWhile isWS).takeWhile (fun c => !isWS c) = [] then none
  else some ((s.dropWhile isWS).takeWhile (fun c => !isWS c),
    (s.dropWhile isWS).dropWhile (fun c => !isWS c))

/-- `fmt.Sscanf(in, "insert %d %s %s", ...)` applied to the input after
its leading `insert` literal: scan the three operands in order.  `Sscanf`
stops once the format is exhausted, so any input remaining after the third
operand is ignored.  `none` means fewer than three operands scanned, in
which case the Go call returns `err != nil || nrow != 3`. -/
def scanInsertArgs (s : List Char) : Option (Nat × List Char × List Char) :=
  (scanUint32 s).bind fun p =>
    (scanTok p.2).bind fun q =>
      (scanTok q.2).map fun w => (p.1, q.1, w.1)

/-- `PrepareResult` constants. -/
inductive PrepareResult where
  | PrepareStatementUnrecognized
  | PrepareResultSyntaxError
  | PrepareResultSuccess
deriving DecidableEq

/-- `StatementKind` constants; `StatementKindUnknown` also stands for the
zero value of a fresh `Statement{}`, which no `executeStatement` case
matches. -/
inductive StatementKind where
  | StatementKindUnknown
  | StatementKindInsert
  | StatementKindSelect
deriving DecidableEq

structure Statement where
  Kind : StatementKind
  RowToInsert : Row
deriving DecidableEq

/-- The zero-valued `Row` of a fresh `Statement{}`.  On a scan error
`Sscanf` may have filled some operands already, but such a statement is
never executed, so the row content is unobservable. -/
def zeroRow : Row := ⟨0, [], []⟩

/-- Go string bytes of an ASCII token (the claims only exercise ASCII,
where UTF-8 bytes and code points coincide). -/
def chBytes (cs : List Char) : List Nat := cs.map Char.toNat

/-- `prepareStatement`: classify by `strings.HasPrefix` on `insert` /
`select`, and for `insert` scan the three operands with `Sscanf` (the
format's `insert` literal consumes the six prefix characters). -/
def prepareStatement (inp : List Char) : PrepareResult × Statement :=
  if ("insert".toList).isPrefixOf inp then
    match scanInsertArgs (inp.drop 6) with
    | some (id, u, e) =>
      (.PrepareResultSuccess, ⟨.StatementKindInsert, ⟨id, chBytes u, chBytes e⟩⟩)
    | none => (.PrepareResultSyntaxError, ⟨.StatementKindInsert, zeroRow⟩)
  else if ("select".toList).isPrefixOf inp then
    (.PrepareResultSuccess, ⟨.StatementKindSelect, zeroRow⟩)
  else
    (.PrepareStatementUnrecognized, ⟨.StatementKindUnknown, zeroRow⟩)

/-- `MetaCommand` constants. -/
inductive MetaCommand where
  | MetaCommandAbort
  | MetaCommandSuccess
  | MetaCommandUnrecognizedCommand
deriving DecidableEq

/-- `doMetaCommand`: only `.exit` is recognized. -/
def doMetaCommand (inp : List Char) : MetaCommand :=
  if inp = ".exit".toList then .MetaCommandAbort else .MetaCommandUnrecognizedCommand

/-- `executeStatement`: dispatch on the statement kind and DISCARD the
`ExecuteResult` returned by `executeInsert` / `executeSelect` (the Go call
ignores both return values).  `none` models a panic inside execution. -/
def executeStatement (stmt : Statement) (t : Table) : Option Table :=
  match stmt.Kind with
  | .StatementKindInsert => (executeInsert stmt.RowToInsert t).map Prod.snd
  | .StatementKindSelect => (executeSelect t).map Prod.snd
  | .StatementKindUnknown => some t

/-- What `run` does with one (newline-trimmed) input line, and what it
reports for it. -/
inductive LineOutcome where
  | LineEmpty
  | LineExitLoop
  | LineMetaContinue
  | LineMetaUnrecognized
  | LineStmtUnrecognized
  | LineSyntaxError
  | LineExecuted
deriving DecidableEq

/-- One iteration of the `run` loop body on a trimmed line: empty lines
are skipped; a line starting with `.` goes to `doMetaCommand`; otherwise
the line is prepared and, only on `PrepareResultSuccess`, executed — after
which `Executed` is printed unconditionally. -/
def runLine (inp : List Char) (t : Table) : LineOutcome × Option Table :=
  match inp with
  | [] => (.LineEmpty, some t)
  | c :: _ =>
    if c = '.' then
      match doMetaCommand inp with
      | .MetaCommandAbort => (.LineExitLoop, some t)
      | .MetaCommandSuccess => (.LineMetaContinue, some t)
      | .MetaCommandUnrecognizedCommand => (.LineMetaUnrecognized, some t)
    else
      match prepareStatement inp with
      | (.PrepareStatementUnrecognized, _) => (.LineStmtUnrecognized, some t)
      | (.PrepareResultSyntaxError, _) => (.LineSyntaxError, some t)
      | (.PrepareResultSuccess, stmt) => (.LineExecuted, executeStatement stmt t)

/-! ## Scanner lemmas -/

theorem dropWhile_cons_of_pos {α} (p : α → Bool) (a : α) (l : List α) (h : p a = true) :
    (a :: l).dropWhile p = l.dropWhile p := by
  rw [List.dropWhile_cons, h]
  simp

theorem dropWhile_cons_of_neg {α} (p : α → Bool) (a : α) (l : List α) (h : p a = false) :
    (a :: l).dropWhile p = a :: l := by
  rw [List.dropWhile_cons, h]
  simp

theorem takeWhile_cons_of_neg {α} (p : α → Bool) (a : α) (l : List α) (h : p a = false) :
    (a :: l).takeWhile p = [] := by
  rw [List.takeWhile_cons, h]
  simp

theorem takeWhile_append_of_all {α} (p : α → Bool) (u r : List α)
    (h : ∀ c ∈ u, p c = true) :
    (u ++ r).takeWhile p = u ++ r.takeWhile p := by
  induction u with
  | nil => rfl
  | cons a tl ih =>
    have ha : p a = true := h a (by simp)
    rw [List.cons_append, List.takeWhile_cons, ha]
    simp only [if_pos]
    rw [ih (fun c hc => h c (by simp [hc]))]
    simp

theorem dropWhile_append_of_all {α} (p : α → Bool) (u r : List α)
    (h : ∀ c ∈ u, p c = true) :
    (u ++ r).dropWhile p = r.dropWhile p := by
  induction u with
  | nil => rfl
  | cons a tl ih =>
    rw [List.cons_append, dropWhile_cons_of_pos p a _ (h a (by simp))]
    exact ih (fun c hc => h c (by simp [hc]))

theorem isWS_of_digit (c : Char) (h : isDigitCh c = true) : isWS c = false := by
  unfold isWS
  rw [Bool.or_eq_false_iff]
  constructor
  · exact beq_eq_false_iff_ne.mpr (fun hc => by subst hc; exact absurd h (by decide))
  · exact beq_eq_false_iff_ne.mpr (fun hc => by subst hc; exact absurd h (by decide))

/-- A `%d` scan of a whitespace-preceded digit run followed by a space:
parses the run's value and stops at the space. -/
theorem scanUint32_digits (d r : List Char) (hd : d ≠ [])
    (hdall : ∀ c ∈ d, isDigitCh c = true) (hdv : digitsVal d < 4294967296) :
    scanUint32 (' ' :: (d ++ ' ' :: r)) = some (digitsVal d, ' ' :: r) := by
  cases d with
  | nil => exact absurd rfl hd
  | cons c d' =>
    have hc : isDigitCh c = true := hdall c (by simp)
    have hcws : isWS c = false := isWS_of_digit c hc
    have e0 : (' ' :: ((c :: d') ++ ' ' :: r)).dropWhile isWS = (c :: d') ++ ' ' :: r := by
      rw [dropWhile_cons_of_pos isWS ' ' _ rfl, List.cons_append,
        dropWhile_cons_of_neg isWS c _ hcws]
    have e1 : ((c :: d') ++ ' ' :: r).takeWhile isDigitCh = c :: d' := by
      rw [takeWhile_append_of_all isDigitCh (c :: d') (' ' :: r) hdall,
        takeWhile_cons_of_neg isDigitCh ' ' r (by decide), List.append_nil]
    have e2 : ((c :: d') ++ ' ' :: r).dropWhile isDigitCh = ' ' :: r := by
      rw [dropWhile_append_of_all isDigitCh (c :: d') (' ' :: r) hdall,
        dropWhile_cons_of_neg isDigitCh ' ' r (by decide)]
    have hplus : ¬ (((' ' :: ((c :: d') ++ ' ' :: r)).dropWhile isWS).head? = some '+') := by
      rw [e0]
      simp only [List.cons_append, List.head?_cons, Option.some.injEq]
      intro hcc
      subst hcc
      exact absurd hc (by decide)
    unfold scanUint32 sscanDigits
    rw [if_neg hplus, e0, e1, e2, if_neg (List.cons_ne_nil c d'), if_pos hdv]

/-- A `%s` scan of a whitespace-preceded token: takes the token and stops
at the following whitespace (or end of input). -/
theorem scanTok_ws_token (u r : List Char) (hu : u ≠ [])
    (huall : ∀ c ∈ u, isWS c = false)
    (hr : r = [] ∨ ∃ c r', r = c :: r' ∧ isWS c = true) :
    scanTok (' ' :: (u ++ r)) = some (u, r) := by
  have e0 : (' ' :: (u ++ r)).dropWhile isWS = u ++ r := by
    rw [dropWhile_cons_of_pos isWS ' ' _ rfl]
    cases u with
    | nil => exact absurd rfl hu
    | cons a tl =>
      rw [List.cons_append, dropWhile_cons_of_neg isWS a _ (huall a (by simp))]
  have e1 : (u ++ r).takeWhile (fun c => !isWS c) = u := by
    rw [takeWhile_append_of_all _ u r (fun c hc => by simp [huall c hc])]
    rcases hr with hnil | ⟨c, r', hrr, hws⟩
    · simp [hnil]
    · rw [hrr, takeWhile_cons_of_neg _ c r' (by simp [hws]), List.append_nil]
  have e2 : (u ++ r).dropWhile (fun c => !isWS c) = r := by
    rw [dropWhile_append_of_all _ u r (fun c hc => by simp [huall c hc])]
    rcases hr with hnil | ⟨c, r', hrr, hws⟩
    · simp [hnil]
    · rw [hrr, dropWhile_cons_of_neg _ c r' (by simp [hws])]
  unfold scanTok
  rw [e0, e1, e2, if_neg hu]

/-! ## Concrete data for the evaluation theorems -/

def rowA : Row := ⟨1, [97], [98]⟩
def row7 : Row := ⟨7, [97], [98]⟩
def row9 : Row := ⟨9, [99], [100]⟩
def rowW : Row := ⟨123456, chBytes ("alice".toList), chBytes ("a@b.co".toList)⟩

/-- A table whose row count has reached the configured maximum. -/
def fullTable : Table :=
  { NumRows := TableMaxRows, pager := { file := emptyFile, pages := fun _ => none } }

/-! ## Claim theorems -/

/-- C4: codec round trip — for every row whose Username and Email fit in
their fixed-width slots and contain no null byte, deserializing the bytes
produced by serializing the row into a zero-filled buffer at any valid
slot offset yields the original row. -/
theorem codec_roundtrip (row : Row) (slot : Nat)
    (hslot : slot + RowSize ≤ PageSize)
    (hid : row.ID < 4294967296)
    (hu : row.Username.length ≤ UsernameSize) (hu0 : ∀ b ∈ row.Username, b ≠ 0)
    (he : row.Email.length ≤ EmailSize) (he0 : ∀ b ∈ row.Email, b ≠ 0) :
    (serializeRow row zeroPage slot).bind (fun p => deserializeRow p slot) = some row := by
  unfold serializeRow
  rw [if_pos hslot]
  show deserializeRow (serializeRowCore row zeroPage slot) slot = some row
  unfold deserializeRow
  rw [if_pos hslot, serialize_deserialize_core row slot hid hu hu0 he he0]

/-- Witness for C4 at a concrete row and slot offset. -/
theorem codec_roundtrip_witness :
    (serializeRow rowW zeroPage 72).bind (fun p => deserializeRow p 72) = some rowW :=
  codec_roundtrip rowW 72 (by decide) (by decide) (by decide) (by decide)
    (by decide) (by decide)

/-- C1: durability round trip FAILS on the code — inserting one row into a
fresh table, closing, reopening and selecting yields 113 rows, not 1: the
close loop writes the whole 4096-byte page buffer, so the reopened file
size 4096 makes `openDB` recompute `NumRows = 4096 / 36 = 113`. -/
theorem durability_roundtrip_defect :
    ((executeInsert rowA (openDB emptyFile)).bind fun rt =>
      (tableClose rt.2).bind fun f =>
        (executeSelect (openDB f)).map fun p => p.1.length) = some 113
    ∧ (113 : Nat) ≠ 1 :=
  ⟨rfl, by decide⟩

/-- C2: the close loop writes each page buffer at the row's INTRA-PAGE
slot offset, not at `page_number * PageSize` — after closing a two-row
table the byte at row 1's durable position 36 is 7 (row 0's ID byte, from
the second write of the page at offset 36) instead of 9, and the file size
is 4132 = 36 + 4096, witnessing a write at a non-page-aligned offset. -/
theorem close_offset_defect :
    ((executeInsert row7 (openDB emptyFile)).bind fun rt =>
      (executeInsert row9 rt.2).bind fun rt2 =>
        (tableClose rt2.2).map fun f => (f.data 36, f.data 0, f.size))
      = some (7, 7, 4132)
    ∧ (7 : Nat) ≠ 9
    ∧ 4132 % PageSize ≠ 0 :=
  ⟨rfl, by decide, by decide⟩

/-- C3: the page-boundary invariant FAILS on the code —
`RowsPerPage = PageSize / IDSize = 1024`, so `RowsPerPage * RowSize =
36864 > PageSize`; the slot of in-page row index 113 is 4068 and
`serializeRow` at that slot overruns the 4096-byte page (a slice panic),
so the 114th insert into a fresh table aborts. -/
theorem rows_per_page_defect :
    PageSize < RowsPerPage * RowSize
    ∧ serializeRow row7 zeroPage (113 % RowsPerPage * RowSize) = none
    ∧ insertMany (List.replicate 114 row7) (openDB emptyFile) = none :=
  ⟨by decide, rfl, rfl⟩

/-- C5: the capacity contract FAILS on the code — after 113 successful
inserts the table has `NumRows = 113`, far below `TableMaxRows = 4194304`,
yet the next insert aborts (slot 4068 + 36 > 4096) instead of succeeding. -/
theorem insert_capacity_defect :
    (insertMany (List.replicate 113 rowA) (openDB emptyFile)).map Table.NumRows = some 113
    ∧ 113 < TableMaxRows
    ∧ ((insertMany (List.replicate 113 rowA) (openDB emptyFile)).bind
        (fun t => executeInsert rowA t)) = none :=
  ⟨rfl, by decide, rfl⟩

/-- C6: append ordering holds for a small prefix (three distinct rows come
back from `select` in insertion order) but the claim FAILS in general on
the code: the 114th insert into a fresh table aborts, so no sequence of
114 rows can be inserted and selected back. -/
theorem append_ordering_defect :
    ((insertMany [row7, row9, rowA] (openDB emptyFile)).bind executeSelect).map Prod.fst
      = some [row7, row9, rowA]
    ∧ insertMany (List.replicate 114 rowA) (openDB emptyFile) = none :=
  ⟨rfl, rfl⟩

/-- C7: the page-capacity check FAILS as claimed on the code — the guard
uses `pageNum > TableMaxPages`, so `pageNum = TableMaxPages` passes it and
hits the out-of-bounds array index (an uncatchable fault, not the checked
`ErrFail`); only `pageNum > TableMaxPages` gets the checked error; and
`rowSlot` turns every `getPage` error into `panic(err)` (`none`) instead
of returning it. -/
theorem page_capacity_defect :
    getPage (openDB emptyFile).pager TableMaxPages = .error .indexPanic
    ∧ getPage (openDB emptyFile).pager (TableMaxPages + 1) = .error .capacity
    ∧ rowSlot (openDB emptyFile) (TableMaxPages * RowsPerPage) = none :=
  ⟨rfl, rfl, rfl⟩

/-- C8 counterexample: an insert line with FOUR fields after the keyword —
`insert 1 alice bob extra` — is accepted with `PrepareResultSuccess`, not
rejected with `PrepareResultSyntaxError` as the claim requires for any
field count other than three: `Sscanf` stops once its format is exhausted
and ignores the trailing input. -/
theorem prepare_insert_extra_fields :
    (prepareStatement ("insert 1 alice bob extra".toList)).1
      = PrepareResult.PrepareResultSuccess
    ∧ (prepareStatement ("insert 1 alice bob extra".toList)).1
      ≠ PrepareResult.PrepareResultSyntaxError :=
  ⟨by decide, by decide⟩

/-- C8 (amended): for a line whose keyword is followed by an in-range
decimal ID and AT LEAST two further whitespace-delimited fields,
preparation succeeds with the parsed row, ignoring (rather than rejecting)
anything after the third operand; a line with only an ID and one further
field yields `PrepareResultSyntaxError`. -/
theorem prepare_insert_amended (d u e rest : List Char)
    (hd : d ≠ []) (hdall : ∀ c ∈ d, isDigitCh c = true) (hdv : digitsVal d < 4294967296)
    (hu : u ≠ []) (huall : ∀ c ∈ u, isWS c = false)
    (he : e ≠ []) (heall : ∀ c ∈ e, isWS c = false)
    (hrest : rest = [] ∨ ∃ c r', rest = c :: r' ∧ isWS c = true) :
    prepareStatement ("insert".toList ++ ' ' :: (d ++ ' ' :: (u ++ ' ' :: (e ++ rest))))
      = (.PrepareResultSuccess,
         ⟨.StatementKindInsert, ⟨digitsVal d, chBytes u, chBytes e⟩⟩)
    ∧ (prepareStatement ("insert".toList ++ ' ' :: (d ++ ' ' :: u))).1
      = .PrepareResultSyntaxError := by
  have hpref : ∀ X : List Char, ("insert".toList).isPrefixOf ("insert".toList ++ X) = true := by
    intro X
    rw [List.isPrefixOf_iff_prefix]
    exact List.prefix_append _ _
  have hdrop : ∀ X : List Char, ("insert".toList ++ X).drop 6 = X := by
    intro X
    rw [show (6 : Nat) = ("insert".toList).length from rfl, List.drop_left]
  constructor
  · have hargs : scanInsertArgs (' ' :: (d ++ ' ' :: (u ++ ' ' :: (e ++ rest))))
        = some (digitsVal d, u, e) := by
      unfold scanInsertArgs
      rw [scanUint32_digits d (u ++ ' ' :: (e ++ rest)) hd hdall hdv]
      show (scanTok (' ' :: (u ++ ' ' :: (e ++ rest)))).bind
        (fun q => (scanTok q.2).map fun w => (digitsVal d, q.1, w.1)) = _
      rw [scanTok_ws_token u (' ' :: (e ++ rest)) hu huall
        (Or.inr ⟨' ', e ++ rest, rfl, rfl⟩)]
      show (scanTok (' ' :: (e ++ rest))).map (fun w => (digitsVal d, u, w.1)) = _
      rw [scanTok_ws_token e rest he heall hrest]
      rfl
    unfold prepareStatement
    rw [if_pos (hpref _), hdrop, hargs]
  · have htok : scanTok (' ' :: u) = some (u, []) := by
      have h0 := scanTok_ws_token u [] hu huall (Or.inl rfl)
      rwa [List.append_nil] at h0
    have hargs2 : scanInsertArgs (' ' :: (d ++ ' ' :: u)) = none := by
      unfold scanInsertArgs
      rw [scanUint32_digits d u hd hdall hdv]
      show (scanTok (' ' :: u)).bind
        (fun q => (scanTok q.2).map fun w => (digitsVal d, q.1, w.1)) = _
      rw [htok]
      show (scanTok ([] : List Char)).map (fun w => (digitsVal d, u, w.1)) = _
      rfl
    unfold prepareStatement
    rw [if_pos (hpref _), hdrop, hargs2]

/-- Witness for the amended C8 at concrete fields, including trailing
extra input that is ignored, and a concrete two-field `SyntaxError`. -/
theorem prepare_insert_amended_witness :
    prepareStatement ("insert".toList ++ ' ' :: ("12".toList ++ ' ' ::
        ("ab".toList ++ ' ' :: ("cd".toList ++ " xx".toList))))
      = (.PrepareResultSuccess,
         ⟨.StatementKindInsert, ⟨digitsVal "12".toList, chBytes "ab".toList,
           chBytes "cd".toList⟩⟩)
    ∧ (prepareStatement ("insert".toList ++ ' ' :: ("12".toList ++ ' ' :: "ab".toList))).1
      = .PrepareResultSyntaxError :=
  prepare_insert_amended "12".toList "ab".toList "cd".toList " xx".toList
    (by decide) (by decide) (by decide) (by decide) (by decide) (by decide) (by decide)
    (Or.inr ⟨' ', "xx".toList, by decide, by decide⟩)

/-- C9: a non-empty line that does not start with the meta-command
sentinel and whose leading characters match neither the `insert` nor the
`select` keyword yields `PrepareStatementUnrecognized`, and the run loop
reports it without executing anything against the table ("classified by
its leading keyword" read as the code's prefix classification). -/
theorem unrecognized_statement_no_exec (inp : List Char) (t : Table)
    (hne : inp ≠ [])
    (hdot : inp.head? ≠ some '.')
    (hins : ("insert".toList).isPrefixOf inp = false)
    (hsel : ("select".toList).isPrefixOf inp = false) :
    runLine inp t = (.LineStmtUnrecognized, some t)
    ∧ prepareStatement inp = (.PrepareStatementUnrecognized, ⟨.StatementKindUnknown, zeroRow⟩) := by
  have hprep : prepareStatement inp
      = (.PrepareStatementUnrecognized, ⟨.StatementKindUnknown, zeroRow⟩) := by
    unfold prepareStatement
    rw [hins, if_neg Bool.false_ne_true, hsel, if_neg Bool.false_ne_true]
  refine ⟨?_, hprep⟩
  cases inp with
  | nil => exact absurd rfl hne
  | cons c r =>
    have hc : c ≠ '.' := fun hcc => hdot (by rw [List.head?_cons, hcc])
    simp only [runLine]
    rw [if_neg hc, hprep]

/-- Witness for C9 at the spec's own example line `foo`. -/
theorem unrecognized_statement_no_exec_witness :
    runLine ("foo".toList) (openDB emptyFile)
      = (.LineStmtUnrecognized, some (openDB emptyFile))
    ∧ prepareStatement ("foo".toList)
      = (.PrepareStatementUnrecognized, ⟨.StatementKindUnknown, zeroRow⟩) :=
  unrecognized_statement_no_exec ("foo".toList) (openDB emptyFile)
    (by decide) (by decide) (by decide) (by decide)

/-- C10: the interpreter discards the execution result — on a table whose
`NumRows` has reached the maximum, the prepared line `insert 1 a b` is
reported `Executed` (the run loop prints the acknowledgment regardless)
while `executeInsert` actually returned `ExecuteTableFull` and left the
table unchanged. -/
theorem full_table_reports_executed (t : Table) (h : TableMaxRows ≤ t.NumRows) :
    runLine ("insert 1 a b".toList) t = (.LineExecuted, some t)
    ∧ executeInsert ⟨1, [97], [98]⟩ t = some (.ExecuteTableFull, t) := by
  have hfull : executeInsert ⟨1, [97], [98]⟩ t = some (.ExecuteTableFull, t) := by
    unfold executeInsert
    rw [if_pos h]
  refine ⟨?_, hfull⟩
  rw [show ("insert 1 a b".toList) = 'i' :: ("nsert 1 a b".toList) from rfl]
  simp only [runLine]
  rw [if_neg (by decide : ¬ ('i' = '.'))]
  rw [show prepareStatement ('i' :: ("nsert 1 a b".toList))
    = (.PrepareResultSuccess, ⟨.StatementKindInsert, ⟨1, [97], [98]⟩⟩) from by decide]
  show (LineOutcome.LineExecuted,
    executeStatement ⟨.StatementKindInsert, ⟨1, [97], [98]⟩⟩ t) = (.LineExecuted, some t)
  unfold executeStatement
  show (LineOutcome.LineExecuted, (executeInsert ⟨1, [97], [98]⟩ t).map Prod.snd)
    = (.LineExecuted, some t)
  rw [hfull]
  rfl

/-- Witness for C10 at a concrete full table. -/
theorem full_table_reports_executed_witness :
    runLine ("insert 1 a b".toList) fullTable = (.LineExecuted, some fullTable)
    ∧ executeInsert ⟨1, [97], [98]⟩ fullTable = some (.ExecuteTableFull, fullTable) :=
  full_table_reports_executed fullTable (by decide)
